import Mathlib

set_option maxHeartbeats 1000000

/-!
Verification of the python-dmidecode SMBIOS/DMI decoding core against its
specification.  The byte codec is embedded from the C header (WORD / DWORD /
QWORD readers); the XML binding stubs are embedded from libxml_stubs.c.  The
remaining components (entry-point locator, structure-table walker, type
decoder registry, section mapper) are not present in the provided sources and
are modelled from the specification text, as indicated on each definition.
-/

/-- Little-endian value of a byte list: byte 0 is least significant. -/
def leVal : List Nat → Nat
  | [] => 0
  | b :: rest => b + 256 * leVal rest

/-- The `n` bytes of `buf` starting at byte offset `off`
(the `(const void *)x` pointer argument of the C readers). -/
def bytesAt (buf : List Nat) (off n : Nat) : List Nat :=
  (buf.drop off).take n

/-- Embeds `WORD` from the C header: `memcpy` of 2 bytes at the given offset,
interpreted with the host's native order; on a little-endian host the native
order is little-endian, so the value is the little-endian interpretation. -/
def WORD (buf : List Nat) (off : Nat) : Nat :=
  leVal (bytesAt buf off 2)

/-- Embeds `DWORD` from the C header: 4-byte little-endian read. -/
def DWORD (buf : List Nat) (off : Nat) : Nat :=
  leVal (bytesAt buf off 4)

/-- Embeds `QWORD` from the C header: 8-byte little-endian read. -/
def QWORD (buf : List Nat) (off : Nat) : Nat :=
  leVal (bytesAt buf off 8)

/-- The low `w` bytes of a value, least significant first. -/
def toBytes : Nat → Nat → List Nat
  | 0, _ => []
  | w + 1, n => n % 256 :: toBytes w (n / 256)

/-- Byte swap of a `w`-byte value (the C `bswap_16` / `bswap_32` /
`bswap_64` fallback macros): the value whose little-endian byte list is the
reverse of the argument's little-endian byte list. -/
def bswap (w n : Nat) : Nat :=
  leVal (toBytes w n).reverse

/-- The value a big-endian host obtains from `memcpy` of the given bytes into
an integer register: the first byte is most significant. -/
def beLoad (bs : List Nat) : Nat :=
  leVal bs.reverse

/-- Embeds the `BIGENDIAN` build of `WORD`: native (big-endian) 2-byte load
followed by the explicit `bswap_16`. -/
def WORD_be (buf : List Nat) (off : Nat) : Nat :=
  bswap 2 (beLoad (bytesAt buf off 2))

/-- Embeds the `BIGENDIAN` build of `DWORD`. -/
def DWORD_be (buf : List Nat) (off : Nat) : Nat :=
  bswap 4 (beLoad (bytesAt buf off 4))

/-- Embeds the `BIGENDIAN` build of `QWORD`. -/
def QWORD_be (buf : List Nat) (off : Nat) : Nat :=
  bswap 8 (beLoad (bytesAt buf off 8))

theorem mem_drop_mem (l : List Nat) (n a : Nat) (h : a ∈ l.drop n) : a ∈ l := by
  have hsplit := List.take_append_drop n l
  rw [← hsplit]
  exact List.mem_append_right _ h

theorem toBytes_leVal : ∀ (bs : List Nat), (∀ b ∈ bs, b < 256) →
    toBytes bs.length (leVal bs) = bs := by
  intro bs
  induction bs with
  | nil => intro _; rfl
  | cons b rest ih =>
      intro h
      have hb : b < 256 := h b (List.mem_cons_self _ _)
      have hrest : ∀ x ∈ rest, x < 256 := fun x hx => h x (List.mem_cons_of_mem _ hx)
      simp only [List.length_cons, toBytes, leVal]
      have h1 : (b + 256 * leVal rest) % 256 = b := by omega
      have h2 : (b + 256 * leVal rest) / 256 = leVal rest := by omega
      rw [h1, h2, ih hrest]

theorem bswap_beLoad (bs : List Nat) (h : ∀ b ∈ bs, b < 256) :
    bswap bs.length (beLoad bs) = leVal bs := by
  unfold bswap beLoad
  have hrev : ∀ b ∈ bs.reverse, b < 256 := by
    intro b hb
    exact h b (List.mem_reverse.mp hb)
  have hlen : bs.length = bs.reverse.length := (List.length_reverse bs).symm
  rw [hlen, toBytes_leVal bs.reverse hrev, List.reverse_reverse]

theorem leVal_append (l1 l2 : List Nat) :
    leVal (l1 ++ l2) = leVal l1 + 256 ^ l1.length * leVal l2 := by
  induction l1 with
  | nil => simp [leVal]
  | cons b rest ih =>
      rw [List.cons_append]
      show b + 256 * leVal (rest ++ l2) = b + 256 * leVal rest + 256 ^ (rest.length + 1) * leVal l2
      rw [ih, pow_succ]
      ring

theorem leVal_lt_pow (bs : List Nat) (h : ∀ b ∈ bs, b < 256) :
    leVal bs < 256 ^ bs.length := by
  induction bs with
  | nil => simp [leVal]
  | cons b rest ih =>
      have hb : b < 256 := h b (List.mem_cons_self _ _)
      have hrest := ih (fun x hx => h x (List.mem_cons_of_mem _ hx))
      simp only [leVal, List.length_cons, pow_succ]
      calc b + 256 * leVal rest < 256 + 256 * leVal rest := by omega
        _ = 256 * (leVal rest + 1) := by ring
        _ ≤ 256 * 256 ^ rest.length := by
              have : leVal rest + 1 ≤ 256 ^ rest.length := hrest
              exact Nat.mul_le_mul_left _ this
        _ = 256 ^ rest.length * 256 := by ring

theorem leVal_take_mod (bs : List Nat) (k : Nat) (h : ∀ b ∈ bs, b < 256)
    (hk : k ≤ bs.length) : leVal (bs.take k) = leVal bs % 256 ^ k := by
  have hsplit : bs.take k ++ bs.drop k = bs := List.take_append_drop k bs
  have hlen : (bs.take k).length = k := by
    rw [List.length_take]
    omega
  have htk : ∀ b ∈ bs.take k, b < 256 := fun b hb => h b (List.take_subset _ _ hb)
  have hlt : leVal (bs.take k) < 256 ^ k := by
    have hx := leVal_lt_pow (bs.take k) htk
    rwa [hlen] at hx
  have happ : leVal bs = leVal (bs.take k) + 256 ^ k * leVal (bs.drop k) := by
    conv_lhs => rw [← hsplit]
    rw [leVal_append, hlen]
  rw [happ, Nat.add_mul_mod_self_left, Nat.mod_eq_of_lt hlt]

/-- C1: For every byte buffer and every offset with enough remaining bytes,
WORD, DWORD and QWORD return the 16-, 32- and 64-bit unsigned value obtained
by interpreting the bytes at that offset as little-endian (byte 0 least
significant), and the big-endian build (explicit byte swap after a native
load) returns the same value as the little-endian build. -/
theorem byte_codec_reads_little_endian (buf : List Nat) (off : Nat)
    (hwf : ∀ b ∈ buf, b < 256) :
    (∀ b0 b1 r, buf.drop off = b0 :: b1 :: r →
        WORD buf off = b0 + 2 ^ 8 * b1 ∧ WORD_be buf off = WORD buf off) ∧
    (∀ b0 b1 b2 b3 r, buf.drop off = b0 :: b1 :: b2 :: b3 :: r →
        DWORD buf off = b0 + 2 ^ 8 * b1 + 2 ^ 16 * b2 + 2 ^ 24 * b3 ∧
          DWORD_be buf off = DWORD buf off) ∧
    (∀ b0 b1 b2 b3 b4 b5 b6 b7 r,
        buf.drop off = b0 :: b1 :: b2 :: b3 :: b4 :: b5 :: b6 :: b7 :: r →
        QWORD buf off = b0 + 2 ^ 8 * b1 + 2 ^ 16 * b2 + 2 ^ 24 * b3 +
            2 ^ 32 * b4 + 2 ^ 40 * b5 + 2 ^ 48 * b6 + 2 ^ 56 * b7 ∧
          QWORD_be buf off = QWORD buf off) := by
  have hdropwf : ∀ b ∈ buf.drop off, b < 256 := fun b hb =>
    hwf b (mem_drop_mem buf off b hb)
  refine ⟨?_, ?_, ?_⟩
  · intro b0 b1 r hdrop
    have hbs : bytesAt buf off 2 = [b0, b1] := by
      simp [bytesAt, hdrop]
    have hb : ∀ b ∈ [b0, b1], b < 256 := by
      intro b hb
      apply hdropwf
      rw [hdrop]
      simp at hb
      rcases hb with h | h <;> simp [h]
    constructor
    · simp only [WORD, hbs, leVal]
      ring
    · show bswap 2 (beLoad (bytesAt buf off 2)) = WORD buf off
      rw [hbs, WORD, hbs]
      have := bswap_beLoad [b0, b1] hb
      simpa using this
  · intro b0 b1 b2 b3 r hdrop
    have hbs : bytesAt buf off 4 = [b0, b1, b2, b3] := by
      simp [bytesAt, hdrop]
    have hb : ∀ b ∈ [b0, b1, b2, b3], b < 256 := by
      intro b hb
      apply hdropwf
      rw [hdrop]
      simp at hb
      rcases hb with h | h | h | h <;> simp [h]
    constructor
    · simp only [DWORD, hbs, leVal]
      ring
    · show bswap 4 (beLoad (bytesAt buf off 4)) = DWORD buf off
      rw [hbs, DWORD, hbs]
      have := bswap_beLoad [b0, b1, b2, b3] hb
      simpa using this
  · intro b0 b1 b2 b3 b4 b5 b6 b7 r hdrop
    have hbs : bytesAt buf off 8 = [b0, b1, b2, b3, b4, b5, b6, b7] := by
      simp [bytesAt, hdrop]
    have hb : ∀ b ∈ [b0, b1, b2, b3, b4, b5, b6, b7], b < 256 := by
      intro b hb
      apply hdropwf
      rw [hdrop]
      simp at hb
      rcases hb with h | h | h | h | h | h | h | h <;> simp [h]
    constructor
    · simp only [QWORD, hbs, leVal]
      ring
    · show bswap 8 (beLoad (bytesAt buf off 8)) = QWORD buf off
      rw [hbs, QWORD, hbs]
      have := bswap_beLoad [b0, b1, b2, b3, b4, b5, b6, b7] hb
      simpa using this

def demoBuf : List Nat := [17, 34, 51, 68, 85, 102, 119, 136]

theorem byte_codec_reads_little_endian_witness :
    (∀ b ∈ demoBuf, b < 256) ∧
    WORD demoBuf 0 = 17 + 2 ^ 8 * 34 ∧ WORD_be demoBuf 0 = WORD demoBuf 0 := by
  have h := byte_codec_reads_little_endian demoBuf 0 (by decide)
  have h2 := h.1 17 34 [51, 68, 85, 102, 119, 136] rfl
  exact ⟨by decide, h2.1, h2.2⟩

/-- C10: at any offset with at least 8 readable bytes the three readers are
mutually consistent truncations: WORD is DWORD reduced modulo 2^16 and DWORD
is QWORD reduced modulo 2^32. -/
theorem byte_codec_truncation_consistency (buf : List Nat) (off : Nat)
    (hwf : ∀ b ∈ buf, b < 256) (hlen : off + 8 ≤ buf.length) :
    WORD buf off = DWORD buf off % 2 ^ 16 ∧
    DWORD buf off = QWORD buf off % 2 ^ 32 := by
  have hdropwf : ∀ b ∈ buf.drop off, b < 256 := fun b hb =>
    hwf b (mem_drop_mem buf off b hb)
  have hdlen : 8 ≤ (buf.drop off).length := by
    rw [List.length_drop]
    omega
  have hwf4 : ∀ b ∈ (buf.drop off).take 4, b < 256 := by
    intro b hb
    exact hdropwf b (List.take_subset _ _ hb)
  have hwf8 : ∀ b ∈ (buf.drop off).take 8, b < 256 := by
    intro b hb
    exact hdropwf b (List.take_subset _ _ hb)
  constructor
  · have h1 : WORD buf off = leVal (((buf.drop off).take 4).take 2) := by
      simp [WORD, DWORD, bytesAt, List.take_take]
    rw [h1, DWORD, bytesAt]
    have h2 := leVal_take_mod ((buf.drop off).take 4) 2 hwf4 (by
      rw [List.length_take]
      omega)
    rw [h2]
    norm_num
  · have h1 : DWORD buf off = leVal (((buf.drop off).take 8).take 4) := by
      simp [DWORD, QWORD, bytesAt, List.take_take]
    rw [h1, QWORD, bytesAt]
    have h2 := leVal_take_mod ((buf.drop off).take 8) 4 hwf8 (by
      rw [List.length_take]
      omega)
    rw [h2]
    norm_num

theorem byte_codec_truncation_consistency_witness :
    (∀ b ∈ demoBuf, b < 256) ∧ 0 + 8 ≤ demoBuf.length ∧
    WORD demoBuf 0 = DWORD demoBuf 0 % 2 ^ 16 ∧
    DWORD demoBuf 0 = QWORD demoBuf 0 % 2 ^ 32 := by
  have h := byte_codec_truncation_consistency demoBuf 0 (by decide) (by decide)
  exact ⟨by decide, by decide, h.1, h.2⟩

/-- The four anchor-signature bytes scanned for by the entry point locator
(the "_SM_" anchor). -/
def anchorSig : List Nat := [95, 83, 77, 95]

/-- Modelled from the spec: the entry-point checksum accumulator.  The
checksum over the entry-point bytes is computed in an 8-bit accumulator, so
every addition is reduced modulo 256; the source repository's
locator/validator code is not under src/. -/
def entry_point_checksum (bs : List Nat) : Nat :=
  bs.foldl (fun s b => (s + b) % 256) 0

/-- Modelled from the spec: the checksum-validation predicate accepts an
entry-point byte sequence when the 8-bit sum of all of its bytes is zero. -/
def checksum_ok (bs : List Nat) : Bool :=
  entry_point_checksum bs == 0

/-- Modelled from the spec: an entry-point candidate is accepted (and an
EntryPointDescriptor created from it) only when it carries the anchor
signature and its checksum passes. -/
def entryPointAccept (raw : List Nat) : Bool :=
  (raw.take 4 == anchorSig) && checksum_ok raw

theorem foldl_mod_sum (bs : List Nat) : ∀ a : Nat,
    bs.foldl (fun s b => (s + b) % 256) (a % 256) = (a + bs.sum) % 256 := by
  induction bs with
  | nil => intro a; simp
  | cons b rest ih =>
      intro a
      simp only [List.foldl_cons, List.sum_cons]
      have h1 : (a % 256 + b) % 256 = (a + b) % 256 := Nat.mod_add_mod a 256 b
      rw [h1, ih (a + b), Nat.add_assoc]

theorem entry_point_checksum_sum (bs : List Nat) :
    entry_point_checksum bs = bs.sum % 256 := by
  have h := foldl_mod_sum bs 0
  simpa [entry_point_checksum] using h

/-- C2: the entry-point checksum-validation predicate accepts a byte sequence
iff the sum of all of its bytes modulo 256 equals zero; in particular an
entry-point candidate is rejected (no valid EntryPointDescriptor arises)
whenever this sum is nonzero. -/
theorem entry_point_checksum_spec :
    (∀ bs : List Nat, checksum_ok bs = true ↔ bs.sum % 256 = 0) ∧
    (∀ raw : List Nat, raw.sum % 256 ≠ 0 → entryPointAccept raw = false) := by
  have hiff : ∀ bs : List Nat, checksum_ok bs = true ↔ bs.sum % 256 = 0 := by
    intro bs
    simp [checksum_ok, entry_point_checksum_sum]
  refine ⟨hiff, ?_⟩
  intro raw hne
  have hck : checksum_ok raw = false := by
    cases hc : checksum_ok raw with
    | false => rfl
    | true => exact absurd ((hiff raw).mp hc) hne
  simp [entryPointAccept, hck]

theorem entry_point_checksum_spec_witness :
    ([95, 83, 77, 95, 1].sum % 256 ≠ 0) ∧
    entryPointAccept [95, 83, 77, 95, 1] = false :=
  ⟨by decide, entry_point_checksum_spec.2 [95, 83, 77, 95, 1] (by decide)⟩

/-- The Python exception classes that the stubbed XML binding functions can
set. -/
inductive PyExceptionKind
  | NotImplementedError
deriving DecidableEq

/-- Outcome of a CPython C-API call: the returned object pointer (`none` is
`NULL`) together with the exception, if any, set via `PyErr_SetString`. -/
structure PyCallResult where
  retval : Option Nat
  raised : Option (PyExceptionKind × String)
deriving DecidableEq

/-- Embeds `libxml_xmlNodePtrWrap` from libxml_stubs.c: ignores its argument,
sets a NotImplementedError and returns NULL. -/
def libxml_xmlNodePtrWrap (node : Nat) : PyCallResult :=
  { retval := none
    raised := some (PyExceptionKind.NotImplementedError,
      "XML API is not available. Use JSON export functions instead.") }

/-- Embeds `libxml_xmlDocPtrWrap` from libxml_stubs.c: ignores its argument,
sets a NotImplementedError and returns NULL. -/
def libxml_xmlDocPtrWrap (doc : Nat) : PyCallResult :=
  { retval := none
    raised := some (PyExceptionKind.NotImplementedError,
      "XML API is not available. Use JSON export functions instead.") }

/-- C9: for every input pointer, each stubbed XML binding function returns
NULL after setting a NotImplementedError Python exception, never returns a
wrapped object, and never inspects its argument (its result is the same for
all inputs). -/
theorem libxml_stubs_raise_not_implemented :
    (∀ node : Nat, (libxml_xmlNodePtrWrap node).retval = none ∧
        (libxml_xmlNodePtrWrap node).raised =
          some (PyExceptionKind.NotImplementedError,
            "XML API is not available. Use JSON export functions instead.")) ∧
    (∀ doc : Nat, (libxml_xmlDocPtrWrap doc).retval = none ∧
        (libxml_xmlDocPtrWrap doc).raised =
          some (PyExceptionKind.NotImplementedError,
            "XML API is not available. Use JSON export functions instead.")) ∧
    (∀ p q : Nat, libxml_xmlNodePtrWrap p = libxml_xmlNodePtrWrap q ∧
        libxml_xmlDocPtrWrap p = libxml_xmlDocPtrWrap q) := by
  refine ⟨fun _ => ⟨rfl, rfl⟩, fun _ => ⟨rfl, rfl⟩, fun _ _ => ⟨rfl, rfl⟩⟩

/-- Session-fatal error taxonomy from the spec: only whole-table faults
surface as session-terminating errors. -/
inductive DmiError
  | NoEntryPoint
  | AccessDenied
  | TruncatedSource
deriving DecidableEq

/-- Modelled from the spec: a raw structure-table record as produced by the
walker — type ID, declared formatted length (header included, so at least 4),
16-bit handle, formatted payload past the 4-byte header, and the ordered
trailing strings (as byte lists); the walker source is not under src/. -/
structure RawRecord where
  type : Nat
  length : Nat
  handle : Nat
  payload : List Nat
  strings : List (List Nat)
deriving DecidableEq

/-- Reads one null-terminated string: the bytes before the first zero, and
the remainder after that zero. -/
def takeString : List Nat → List Nat × List Nat
  | [] => ([], [])
  | 0 :: rest => ([], rest)
  | b :: rest => (b :: (takeString rest).1, (takeString rest).2)

/-- Scans forward collecting null-terminated strings until a string of zero
length is found; the fuel argument bounds the number of collected strings and
is in practice always sufficient, since every collected string consumes at
least two input bytes. -/
def parseStringsFuel : Nat → List Nat → List (List Nat) × List Nat
  | 0, bs => ([], bs)
  | fuel + 1, bs =>
      let p := takeString bs
      if p.1 = [] then ([], p.2)
      else
        let q := parseStringsFuel fuel p.2
        (p.1 :: q.1, q.2)

/-- Modelled from the spec: the walker's string-block scan.  A record with no
strings carries just the two-byte double-null terminator; otherwise strings
are collected one by one until the zero-length string marking the double-null
terminator. -/
def parseStrings (bs : List Nat) : List (List Nat) × List Nat :=
  match bs with
  | 0 :: 0 :: rest => ([], rest)
  | _ => parseStringsFuel bs.length bs

/-- Modelled from the spec: the structure table walker.  Reads up to
`count` records from the remaining table bytes: for each record the 4-byte
header (type, length, handle) is read, then `length - 4` payload bytes, then
the trailing string block.  A record whose declared length is below the
4-byte minimum, or would run past the table's end, stops the walk with a
single recoverable warning; reaching the end of the table stops it
silently. -/
def walk : Nat → List Nat → List RawRecord × List String
  | 0, _ => ([], [])
  | _ + 1, [] => ([], [])
  | count + 1, t :: l :: h0 :: h1 :: rest =>
      if l < 4 then
        ([], ["MalformedRecord: formatted length below the 4-byte minimum"])
      else if rest.length < l - 4 then
        ([], ["MalformedRecord: formatted length runs past the table end"])
      else
        let payload := rest.take (l - 4)
        let p := parseStrings (rest.drop (l - 4))
        let w := walk count p.2
        (RawRecord.mk t l (h0 + 256 * h1) payload p.1 :: w.1, w.2)
  | _ + 1, _ => ([], ["MalformedRecord: truncated record header"])

/-- Modelled from the spec: record-level faults degrade to partial results
plus warnings; the walker itself never raises a session-fatal error, so its
result is always returned through the `ok` branch of the session's error
type. -/
def runWalker (count : Nat) (table : List Nat) :
    Except DmiError (List RawRecord × List String) :=
  Except.ok (walk count table)

/-- Serialization of a non-special-cased string block: each string followed
by its null terminator, then the final null of the double-null terminator. -/
def strBlock1 : List (List Nat) → List Nat
  | [] => [0]
  | s :: tl => s ++ 0 :: strBlock1 tl

/-- Serialization of a record's trailing string block: a record with no
strings carries just the double-null terminator. -/
def encodeStrings (ss : List (List Nat)) : List Nat :=
  match ss with
  | [] => [0, 0]
  | _ => strBlock1 ss

/-- Serialization of one structure-table record: 4-byte header (type, length,
16-bit little-endian handle), formatted payload, trailing string block. -/
def encodeRecord (r : RawRecord) : List Nat :=
  r.type :: r.length :: r.handle % 256 :: r.handle / 256 ::
    (r.payload ++ encodeStrings r.strings)

/-- Serialization of a sequence of records into structure-table bytes. -/
def encodeTable : List RawRecord → List Nat
  | [] => []
  | r :: rs => encodeRecord r ++ encodeTable rs

/-- Well-formedness of a record: byte-sized type, 16-bit handle, declared
length consistent with the payload and byte-sized, byte-sized payload, and
nonempty null-free byte-sized strings. -/
def wfRecord (r : RawRecord) : Prop :=
  r.type < 256 ∧ r.handle < 65536 ∧ r.length = 4 + r.payload.length ∧
    r.length ≤ 255 ∧ (∀ b ∈ r.payload, b < 256) ∧
    ∀ s ∈ r.strings, s ≠ [] ∧ ∀ b ∈ s, 0 < b ∧ b < 256

instance (r : RawRecord) : Decidable (wfRecord r) := by
  unfold wfRecord
  infer_instance

theorem takeString_no_zero (s : List Nat) (hs : ∀ b ∈ s, 0 < b) (r : List Nat) :
    takeString (s ++ 0 :: r) = (s, r) := by
  induction s with
  | nil => rfl
  | cons b tl ih =>
      have hb : 0 < b := hs b (List.mem_cons_self _ _)
      have htl : ∀ x ∈ tl, 0 < x := fun x hx => hs x (List.mem_cons_of_mem _ hx)
      obtain ⟨k, rfl⟩ : ∃ k, b = k + 1 := ⟨b - 1, by omega⟩
      rw [List.cons_append]
      show ((k + 1) :: (takeString (tl ++ 0 :: r)).1, (takeString (tl ++ 0 :: r)).2)
        = ((k + 1) :: tl, r)
      rw [ih htl]

theorem parseStringsFuel_strBlock1 (ss : List (List Nat))
    (h : ∀ s ∈ ss, s ≠ [] ∧ ∀ b ∈ s, 0 < b) (rest : List Nat) :
    ∀ fuel, ss.length < fuel →
      parseStringsFuel fuel (strBlock1 ss ++ rest) = (ss, rest) := by
  induction ss with
  | nil =>
      intro fuel hf
      obtain ⟨f, rfl⟩ : ∃ f, fuel = f + 1 := ⟨fuel - 1, by omega⟩
      show parseStringsFuel (f + 1) (0 :: rest) = ([], rest)
      simp [parseStringsFuel, takeString]
  | cons s tl ih =>
      intro fuel hf
      obtain ⟨f, rfl⟩ : ∃ f, fuel = f + 1 := ⟨fuel - 1, by omega⟩
      have hs := h s (List.mem_cons_self _ _)
      have htl : ∀ x ∈ tl, x ≠ [] ∧ ∀ b ∈ x, 0 < b := fun x hx =>
        h x (List.mem_cons_of_mem _ hx)
      have hblock : strBlock1 (s :: tl) ++ rest = s ++ 0 :: (strBlock1 tl ++ rest) := by
        simp [strBlock1]
      rw [hblock]
      have htake : takeString (s ++ 0 :: (strBlock1 tl ++ rest))
          = (s, strBlock1 tl ++ rest) := takeString_no_zero s hs.2 _
      have hrec : parseStringsFuel f (strBlock1 tl ++ rest) = (tl, rest) :=
        ih htl f (by simpa using Nat.lt_of_succ_lt_succ hf)
      simp [parseStringsFuel, htake, hs.1, hrec]

theorem strBlock1_length (ss : List (List Nat)) :
    ss.length < (strBlock1 ss).length := by
  induction ss with
  | nil => simp [strBlock1]
  | cons s tl ih =>
      simp only [strBlock1, List.length_cons, List.length_append, List.length_cons]
      omega

theorem parseStrings_pos_head (k : Nat) (bs : List Nat) :
    parseStrings ((k + 1) :: bs) = parseStringsFuel (bs.length + 1) ((k + 1) :: bs) := rfl

theorem parseStrings_encodeStrings (ss : List (List Nat))
    (h : ∀ s ∈ ss, s ≠ [] ∧ ∀ b ∈ s, 0 < b) (rest : List Nat) :
    parseStrings (encodeStrings ss ++ rest) = (ss, rest) := by
  cases ss with
  | nil => rfl
  | cons s tl =>
      have hs := h s (List.mem_cons_self _ _)
      obtain ⟨b, s', rfl⟩ : ∃ b s', s = b :: s' := by
        cases s with
        | nil => exact absurd rfl hs.1
        | cons b s' => exact ⟨b, s', rfl⟩
      have hb : 0 < b := hs.2 b (List.mem_cons_self _ _)
      obtain ⟨k, rfl⟩ : ∃ k, b = k + 1 := ⟨b - 1, by omega⟩
      have hshape : encodeStrings (((k + 1) :: s') :: tl) ++ rest
          = (k + 1) :: (s' ++ 0 :: (strBlock1 tl ++ rest)) := by
        show strBlock1 (((k + 1) :: s') :: tl) ++ rest = _
        simp [strBlock1, List.append_assoc]
      rw [hshape, parseStrings_pos_head, ← hshape]
      have henc : encodeStrings (((k + 1) :: s') :: tl)
          = strBlock1 (((k + 1) :: s') :: tl) := rfl
      rw [henc]
      apply parseStringsFuel_strBlock1 _ h rest
      simp only [List.length_cons, List.length_append]
      have hsb := strBlock1_length tl
      omega

theorem take_append_len (l1 l2 : List Nat) : (l1 ++ l2).take l1.length = l1 := by
  induction l1 with
  | nil => simp
  | cons b tl ih => simp [ih]

theorem drop_append_len (l1 l2 : List Nat) : (l1 ++ l2).drop l1.length = l2 := by
  induction l1 with
  | nil => simp
  | cons b tl ih => simp [ih]

theorem walk_encode_cons (r : RawRecord) (hr : wfRecord r) (n : Nat)
    (rest : List Nat) :
    walk (n + 1) (encodeRecord r ++ rest)
      = (r :: (walk n rest).1, (walk n rest).2) := by
  obtain ⟨t, l, h, p, ss⟩ := r
  obtain ⟨ht, hh, hl, hlmax, hp, hs⟩ := hr
  simp only at hl
  subst hl
  have hshape : encodeRecord ⟨t, 4 + p.length, h, p, ss⟩ ++ rest
      = t :: (4 + p.length) :: h % 256 :: h / 256 ::
          (p ++ (encodeStrings ss ++ rest)) := by
    simp [encodeRecord, List.append_assoc]
  rw [hshape]
  have hlen4 : ¬ (4 + p.length < 4) := by omega
  have hsub : 4 + p.length - 4 = p.length := by omega
  have hrlen : ¬ ((p ++ (encodeStrings ss ++ rest)).length < 4 + p.length - 4) := by
    rw [hsub, List.length_append]
    omega
  simp only [walk, if_neg hlen4, if_neg hrlen, hsub]
  rw [take_append_len, drop_append_len]
  rw [parseStrings_encodeStrings ss
    (fun s hss => ⟨(hs s hss).1, fun b hbb => ((hs s hss).2 b hbb).1⟩) rest]
  rw [Nat.mod_add_div h 256]
  have hrlen2 : ¬ ((p ++ (encodeStrings ss ++ rest)).length < p.length) := by
    rw [List.length_append]
    omega
  rw [if_neg hrlen2]

theorem walk_table_bad (t l h0 h1 : Nat) (extra : List Nat)
    (hbad : extra.length + 4 < l) : ∀ rs : List RawRecord,
    (∀ r ∈ rs, wfRecord r) →
    walk (rs.length + 1) (encodeTable rs ++ t :: l :: h0 :: h1 :: extra)
      = (rs, ["MalformedRecord: formatted length runs past the table end"]) := by
  intro rs
  induction rs with
  | nil =>
      intro _
      show walk (0 + 1) (t :: l :: h0 :: h1 :: extra) = _
      have h4 : ¬ (l < 4) := by omega
      have hr : extra.length < l - 4 := by omega
      simp only [walk, if_neg h4, if_pos hr]
  | cons r rs ih =>
      intro hwf
      have hwfr := hwf r (List.mem_cons_self _ _)
      have hwfrs : ∀ x ∈ rs, wfRecord x := fun x hx =>
        hwf x (List.mem_cons_of_mem _ hx)
      have hassoc : encodeTable (r :: rs) ++ t :: l :: h0 :: h1 :: extra
          = encodeRecord r ++ (encodeTable rs ++ t :: l :: h0 :: h1 :: extra) := by
        simp [encodeTable, List.append_assoc]
      rw [List.length_cons, hassoc, walk_encode_cons r hwfr (rs.length + 1) _,
        ih hwfrs]

/-- C3: for every structure table synthesized from N-1 well-formed records
followed by a record whose declared formatted length exceeds the remaining
bytes of the table, the walker returns exactly the N-1 records decoded before
it, accompanied by exactly one warning, and never raises a session-fatal
error (the result always comes back through the ok branch). -/
theorem walker_stops_with_partial_table (rs : List RawRecord)
    (hwf : ∀ r ∈ rs, wfRecord r) (t l h0 h1 : Nat) (extra : List Nat)
    (hbad : extra.length + 4 < l) :
    runWalker (rs.length + 1) (encodeTable rs ++ t :: l :: h0 :: h1 :: extra)
      = Except.ok
          (rs, ["MalformedRecord: formatted length runs past the table end"]) := by
  unfold runWalker
  rw [walk_table_bad t l h0 h1 extra hbad rs hwf]

def demoRec : RawRecord := ⟨1, 5, 4660, [171], [[65, 66]]⟩

theorem walker_stops_with_partial_table_witness :
    (∀ r ∈ [demoRec], wfRecord r) ∧ [1, 2].length + 4 < 10 ∧
    runWalker 2 (encodeTable [demoRec] ++ 2 :: 10 :: 0 :: 0 :: [1, 2])
      = Except.ok
          ([demoRec],
            ["MalformedRecord: formatted length runs past the table end"]) :=
  ⟨by decide, by decide,
    walker_stops_with_partial_table [demoRec] (by decide) 2 10 0 0 [1, 2]
      (by decide)⟩

/-- Modelled from the spec: a decoded field value is a tagged variant —
scalar, string, reference-to-handle (possibly absent), raw bytes or raw
string list (the generic fallback's verbatim exposure), or absent. -/
inductive FieldValue
  | scalar (n : Nat)
  | str (s : String)
  | handleRef (h : Option Nat)
  | bytes (bs : List Nat)
  | strList (ss : List (List Nat))
  | absent
deriving DecidableEq

/-- Modelled from the spec: one decoded structure — type ID, handle,
human-readable type name and the mapping from field name to decoded value. -/
structure DecodedStructure where
  dmi_type : Nat
  handle : Nat
  typeName : String
  fields : List (String × FieldValue)
deriving DecidableEq

/-- Modelled from the spec: the TypeCatalog names for the standard range
[0,46], indexed by type ID (the standard SMBIOS structure-type names). -/
def smbiosTypeNames : List String :=
  ["BIOS Information", "System Information", "Base Board Information",
   "Chassis Information", "Processor Information",
   "Memory Controller Information", "Memory Module Information",
   "Cache Information", "Port Connector Information", "System Slots",
   "On Board Devices Information", "OEM Strings",
   "System Configuration Options", "BIOS Language Information",
   "Group Associations", "System Event Log", "Physical Memory Array",
   "Memory Device", "32-bit Memory Error Information",
   "Memory Array Mapped Address", "Memory Device Mapped Address",
   "Built-in Pointing Device", "Portable Battery", "System Reset",
   "Hardware Security", "System Power Controls", "Voltage Probe",
   "Cooling Device", "Temperature Probe", "Electrical Current Probe",
   "Out-of-band Remote Access", "Boot Integrity Services",
   "System Boot Information", "64-bit Memory Error Information",
   "Management Device", "Management Device Component",
   "Management Device Threshold Data", "Memory Channel",
   "IPMI Device Information", "System Power Supply",
   "Additional Information", "Onboard Devices Extended Information",
   "Management Controller Host Interface", "TPM Device",
   "Processor Additional Information", "Firmware Inventory Information",
   "String Property"]

/-- TypeCatalog lookup for the standard range: a name exists exactly for
type IDs 0..46. -/
def standardTypeName (t : Nat) : Option String :=
  smbiosTypeNames[t]?

/-- Modelled from the spec: TypeCatalog names known for specific IDs of the
OEM/vendor range [128,255]; the repository README documents
`get_type_name(130)` as "OEM Slot Information". -/
def oemVendorName (t : Nat) : Option String :=
  if t = 130 then some "OEM Slot Information" else none

/-- Modelled from the spec: `get_type_name` — the standard-range name when
one exists, else the known vendor name, else the synthesized
"OEM Type N" label. -/
def get_type_name (t : Nat) : String :=
  match standardTypeName t with
  | some n => n
  | none =>
      match oemVendorName t with
      | some n => n
      | none => "OEM Type " ++ toString t

/-- Modelled from the spec: the generic fallback decoder used when no
decoder is registered for a record's type ID — it takes the type name from
the TypeCatalog and exposes the raw payload bytes and the trailing strings
verbatim, without field-level interpretation. -/
def genericDecode (r : RawRecord) : DecodedStructure :=
  { dmi_type := r.type
    handle := r.handle
    typeName := get_type_name r.type
    fields := [("Raw Bytes", FieldValue.bytes r.payload),
               ("Strings", FieldValue.strList r.strings)] }

/-- Modelled from the spec: dispatch through the type decoder registry — a
registered decoder interprets the record, otherwise the generic fallback
applies.  The registry is a parameter: the claims below hold for every
registry state on the types it leaves unregistered. -/
def decodeRecord (reg : Nat → Option (RawRecord → DecodedStructure))
    (r : RawRecord) : DecodedStructure :=
  match reg r.type with
  | some d => d r
  | none => genericDecode r

/-- A registry with no decoders registered at all. -/
def emptyRegistry : Nat → Option (RawRecord → DecodedStructure) :=
  fun _ => none

/-- Counterexample record for the OEM-fallback claim: an OEM-range record of
type 130 with no registered decoder. -/
def rec130 : RawRecord := ⟨130, 6, 1, [1, 2], []⟩

/-- Witness record for the OEM-fallback claim: an OEM-range record of type
200 with no registered decoder and no catalog name. -/
def rec200 : RawRecord := ⟨200, 5, 2, [222], [[65]]⟩

/-- C5 counterexample: type 130 has no registered decoder, yet the fallback
decoder's type name is the catalog vendor name "OEM Slot Information", not
the synthesized label "OEM Type 130" — so the claim as stated (synthesized
label for every unregistered type ID) fails. -/
theorem oem_fallback_label_counterexample :
    emptyRegistry 130 = none ∧
    (decodeRecord emptyRegistry rec130).typeName ≠ "OEM Type 130" ∧
    (decodeRecord emptyRegistry rec130).typeName = "OEM Slot Information" := by
  refine ⟨rfl, ?_, by decide⟩
  decide

/-- C5 (amended): for every record whose type ID has no registered decoder,
the generic fallback decoder applies and exposes the raw payload bytes and
trailing strings verbatim, with the type name taken from the TypeCatalog;
when the TypeCatalog also has no name for the type ID (no standard-range
name and no vendor name, as for type ID 200) that name is the synthesized
label "OEM Type N". -/
theorem oem_fallback_generic_decode
    (reg : Nat → Option (RawRecord → DecodedStructure)) (r : RawRecord)
    (hreg : reg r.type = none) :
    decodeRecord reg r = genericDecode r ∧
    (decodeRecord reg r).dmi_type = r.type ∧
    (decodeRecord reg r).handle = r.handle ∧
    (decodeRecord reg r).fields.lookup "Raw Bytes"
      = some (FieldValue.bytes r.payload) ∧
    (decodeRecord reg r).fields.lookup "Strings"
      = some (FieldValue.strList r.strings) ∧
    (decodeRecord reg r).typeName = get_type_name r.type ∧
    (standardTypeName r.type = none → oemVendorName r.type = none →
      (decodeRecord reg r).typeName = "OEM Type " ++ toString r.type) := by
  have hgen : decodeRecord reg r = genericDecode r := by
    unfold decodeRecord
    rw [hreg]
  refine ⟨hgen, ?_, ?_, ?_, ?_, ?_, ?_⟩ <;> rw [hgen]
  · rfl
  · rfl
  · simp [genericDecode, List.lookup]
  · simp [genericDecode, List.lookup]
  · rfl
  · intro hstd hoem
    show get_type_name r.type = _
    unfold get_type_name
    rw [hstd, hoem]

theorem oem_fallback_generic_decode_witness :
    emptyRegistry 200 = none ∧
    standardTypeName 200 = none ∧ oemVendorName 200 = none ∧
    (decodeRecord emptyRegistry rec200).typeName = "OEM Type " ++ toString 200 ∧
    (decodeRecord emptyRegistry rec200).fields.lookup "Raw Bytes"
      = some (FieldValue.bytes [222]) :=
  ⟨rfl, by decide, by decide,
    (oem_fallback_generic_decode emptyRegistry rec200 rfl).2.2.2.2.2.2
      (by decide) (by decide),
    (oem_fallback_generic_decode emptyRegistry rec200 rfl).2.2.2.1⟩

/-- Modelled from the spec: the static mapping from section name to the set
of type IDs belonging to it (the Available Sections table). -/
def sectionTypes : String → List Nat
  | "bios" => [0, 13, 45]
  | "system" => [1, 11, 12, 14, 15, 23, 32]
  | "baseboard" => [2, 10, 41]
  | "chassis" => [3]
  | "processor" => [4, 44]
  | "memory" => [5, 6, 16, 17, 18, 19, 20, 33, 37]
  | "cache" => [7]
  | "connector" => [8]
  | "slot" => [9]
  | _ => []

/-- Modelled from the spec: `querySection` filters the full decoded
structure set to the named section's type IDs; "all" returns everything. -/
def querySection (table : List DecodedStructure) (name : String) :
    List DecodedStructure :=
  if name = "all" then table
  else table.filter (fun d => decide (d.dmi_type ∈ sectionTypes name))

/-- Modelled from the spec: `queryTypeId` filters the decoded structure set
of a session to exactly one type ID; a session-level error propagates, and
an absent type yields an empty result, not an error. -/
def queryTypeId (sess : Except DmiError (List DecodedStructure)) (id : Nat) :
    Except DmiError (List DecodedStructure) :=
  match sess with
  | Except.error e => Except.error e
  | Except.ok table => Except.ok (table.filter (fun d => d.dmi_type == id))

/-- C4: for every decoded table, querySection "bios" returns exactly the
subset of querySection "all" whose type IDs are in the set 0, 13, 45 — no
more and no fewer. -/
theorem querySection_bios_filters_all (table : List DecodedStructure) :
    querySection table "bios"
      = (querySection table "all").filter
          (fun d => decide (d.dmi_type = 0 ∨ d.dmi_type = 13 ∨ d.dmi_type = 45))
    ∧ ∀ d, d ∈ querySection table "bios" ↔
        d ∈ querySection table "all" ∧
          (d.dmi_type = 0 ∨ d.dmi_type = 13 ∨ d.dmi_type = 45) := by
  have hne : ¬ (("bios" : String) = "all") := by decide
  have hsec : sectionTypes "bios" = [0, 13, 45] := rfl
  have hq : querySection table "bios"
      = table.filter (fun d => decide (d.dmi_type ∈ sectionTypes "bios")) := by
    simp [querySection, hne]
  have hall : querySection table "all" = table := by simp [querySection]
  constructor
  · rw [hq, hall]
    apply List.filter_congr
    intro d _
    apply decide_eq_decide.mpr
    rw [hsec]
    simp
  · intro d
    rw [hq, hall]
    rw [hsec]
    simp [List.mem_filter]

/-- C8: for every type ID in 0..255, when the decode session itself
succeeds, queryTypeId returns an empty result — not an error — whenever no
structure of that type exists in the table; and the session-fatal errors
are limited to NoEntryPoint, AccessDenied and TruncatedSource, each
propagating unchanged. -/
theorem queryTypeId_empty_result_not_error (table : List DecodedStructure)
    (id : Nat) (hid : id ≤ 255) (habsent : ∀ d ∈ table, d.dmi_type ≠ id) :
    queryTypeId (Except.ok table) id = Except.ok ([] : List DecodedStructure) ∧
    (∀ e : DmiError, queryTypeId (Except.error e) id = Except.error e ∧
      (e = DmiError.NoEntryPoint ∨ e = DmiError.AccessDenied ∨
        e = DmiError.TruncatedSource)) := by
  constructor
  · show Except.ok (table.filter (fun d => d.dmi_type == id)) = Except.ok []
    congr 1
    rw [List.filter_eq_nil]
    intro d hd
    simp only [beq_iff_eq]
    simp [habsent d hd]
  · intro e
    refine ⟨rfl, ?_⟩
    cases e with
    | NoEntryPoint => exact Or.inl rfl
    | AccessDenied => exact Or.inr (Or.inl rfl)
    | TruncatedSource => exact Or.inr (Or.inr rfl)

def demoOther : DecodedStructure := ⟨7, 40, "Cache Information", []⟩

theorem queryTypeId_empty_result_not_error_witness :
    (3 : Nat) ≤ 255 ∧ (∀ d ∈ [demoOther], d.dmi_type ≠ 3) ∧
    queryTypeId (Except.ok [demoOther]) 3
      = Except.ok ([] : List DecodedStructure) :=
  ⟨by decide, by decide,
    (queryTypeId_empty_result_not_error [demoOther] 3 (by decide)
      (by decide)).1⟩

/-- Modelled from the spec: a Memory Device's size field — an installed
slot decodes to a scalar size, a slot reporting "not installed" (or an
absent or non-scalar Size field) contributes nothing. -/
def memDeviceSize (d : DecodedStructure) : Option Nat :=
  match d.fields.lookup "Size" with
  | some (FieldValue.scalar n) => some n
  | _ => none

/-- Modelled from the spec: the summary view's running total of installed
memory — each Memory Device (type 17) structure adds its size, slots
reporting "not installed" are skipped. -/
def memoryTotalAux : List DecodedStructure → Nat
  | [] => 0
  | d :: rest =>
      (if d.dmi_type == 17 then (memDeviceSize d).getD 0 else 0) +
        memoryTotalAux rest

/-- Modelled from the spec: the high-level hardware summary — first System
and BIOS structures projected to a reduced field subset, processor count,
and total installed memory. -/
structure HardwareInfo where
  systemManufacturer : Option FieldValue
  systemProductName : Option FieldValue
  biosVendor : Option FieldValue
  biosVersion : Option FieldValue
  processorCount : Nat
  memoryTotal : Nat
deriving DecidableEq

/-- The first decoded structure of a given type, if any. -/
def firstOfType (table : List DecodedStructure) (t : Nat) :
    Option DecodedStructure :=
  (table.filter (fun d => d.dmi_type == t)).head?

/-- Modelled from the spec: `get_hardware_info` selects the first System
(type 1) and BIOS (type 0) structures, counts Processor (type 4)
structures, and sums the installed Memory Device (type 17) sizes. -/
def get_hardware_info (table : List DecodedStructure) : HardwareInfo :=
  { systemManufacturer :=
      (firstOfType table 1).bind (fun d => d.fields.lookup "Manufacturer")
    systemProductName :=
      (firstOfType table 1).bind (fun d => d.fields.lookup "Product Name")
    biosVendor :=
      (firstOfType table 0).bind (fun d => d.fields.lookup "Vendor")
    biosVersion :=
      (firstOfType table 0).bind (fun d => d.fields.lookup "Version")
    processorCount := (table.filter (fun d => d.dmi_type == 4)).length
    memoryTotal := memoryTotalAux table }

/-- C6: for every decoded table, the hardware summary's memory total equals
the sum of the size fields of exactly those Memory Device (type 17)
structures that are installed (a slot reporting "not installed" has no
scalar size and is excluded); in particular, whenever the installed Memory
Device sizes are 4096 and 8192 beside a not-installed slot, the total is
12288. -/
theorem hardware_info_memory_total (table : List DecodedStructure) :
    (get_hardware_info table).memoryTotal
      = ((table.filter (fun d => d.dmi_type == 17)).filterMap memDeviceSize).sum
    ∧ ((table.filter (fun d => d.dmi_type == 17)).filterMap memDeviceSize
          = [4096, 8192] →
        (get_hardware_info table).memoryTotal = 12288) := by
  have hmain : ∀ l : List DecodedStructure,
      memoryTotalAux l
        = ((l.filter (fun d => d.dmi_type == 17)).filterMap memDeviceSize).sum := by
    intro l
    induction l with
    | nil => rfl
    | cons d rest ih =>
        by_cases h17 : d.dmi_type = 17
        · have hb : (d.dmi_type == 17) = true := by simp [h17]
          cases hsz : memDeviceSize d with
          | none =>
              simp [memoryTotalAux, List.filter_cons, hb, List.filterMap_cons,
                hsz, ih]
          | some n =>
              simp [memoryTotalAux, List.filter_cons, hb, List.filterMap_cons,
                hsz, ih]
        · have hb : (d.dmi_type == 17) = false := by simp [h17]
          simp [memoryTotalAux, List.filter_cons, hb, ih]
  have h1 : (get_hardware_info table).memoryTotal
      = ((table.filter (fun d => d.dmi_type == 17)).filterMap memDeviceSize).sum := by
    show memoryTotalAux table = _
    exact hmain table
  refine ⟨h1, ?_⟩
  intro hinst
  rw [h1, hinst]
  rfl

def memDev4096 : DecodedStructure :=
  ⟨17, 100, "Memory Device", [("Size", FieldValue.scalar 4096)]⟩

def memDev8192 : DecodedStructure :=
  ⟨17, 101, "Memory Device", [("Size", FieldValue.scalar 8192)]⟩

def memDevEmpty : DecodedStructure :=
  ⟨17, 102, "Memory Device", [("Size", FieldValue.str "Not Installed")]⟩

def demoMemTable : List DecodedStructure :=
  [memDev4096, memDev8192, memDevEmpty]

theorem hardware_info_memory_total_witness :
    (demoMemTable.filter (fun d => d.dmi_type == 17)).filterMap memDeviceSize
        = [4096, 8192] ∧
    (get_hardware_info demoMemTable).memoryTotal = 12288 :=
  ⟨by decide, (hardware_info_memory_total demoMemTable).2 (by decide)⟩

/-- Modelled from the spec: the EntryPointDescriptor fields — SMBIOS
major/minor version, structure count, structure-table length, structure-table
physical address and the entry-point checksum (the anchor signature is the
fixed `anchorSig`). -/
structure EntryPointDescriptor where
  major : Nat
  minor : Nat
  structureCount : Nat
  tableLength : Nat
  tableAddress : Nat
  checksum : Nat
deriving DecidableEq

/-- Modelled from the spec: the fixed-size capture-file header reproducing
the EntryPointDescriptor fields — anchor signature, version bytes, 16-bit
little-endian structure count and table length, 32-bit little-endian table
address, checksum byte; 15 bytes in total. -/
def encodeEntryPoint (ep : EntryPointDescriptor) : List Nat :=
  anchorSig ++
    [ep.major % 256, ep.minor % 256,
     ep.structureCount % 256, ep.structureCount / 256 % 256,
     ep.tableLength % 256, ep.tableLength / 256 % 256,
     ep.tableAddress % 256, ep.tableAddress / 256 % 256,
     ep.tableAddress / 65536 % 256, ep.tableAddress / 16777216 % 256,
     ep.checksum % 256]

/-- Modelled from the spec: when reading from a capture file the
entry-point descriptor is read back from the file's recorded metadata
(through the byte codec) instead of re-scanned. -/
def readCaptureHeader (file : List Nat) : Option EntryPointDescriptor :=
  if file.length < 15 then none
  else if file.take 4 = anchorSig then
    some { major := leVal (bytesAt file 4 1)
           minor := leVal (bytesAt file 5 1)
           structureCount := WORD file 6
           tableLength := WORD file 8
           tableAddress := DWORD file 10
           checksum := leVal (bytesAt file 14 1) }
  else none

/-- Modelled from the spec: the structured result set of one decode
session — the decoded structures plus the session's recoverable warnings. -/
structure DecodeResult where
  structures : List DecodedStructure
  warnings : List String
deriving DecidableEq

/-- Modelled from the spec: one decode session over structure-table bytes —
walk the table, then decode every raw record through the registry. -/
def decodeSession (reg : Nat → Option (RawRecord → DecodedStructure))
    (count : Nat) (tableBytes : List Nat) : DecodeResult :=
  { structures := (walk count tableBytes).1.map (decodeRecord reg)
    warnings := (walk count tableBytes).2 }

/-- Modelled from the spec: `captureDump` persists the entry-point header
followed by exactly `structure-table length` bytes of raw structure-table
content; no compression, no further framing. -/
def captureDump (ep : EntryPointDescriptor) (tableBytes : List Nat) :
    List Nat :=
  encodeEntryPoint ep ++ tableBytes.take ep.tableLength

/-- Modelled from the spec: decoding from a capture file — reconstruct the
EntryPointDescriptor from the recorded header without re-scanning memory,
then decode the embedded structure-table bytes; a short file is a truncated
source and a missing anchor means no entry point. -/
def decodeFromCapture (reg : Nat → Option (RawRecord → DecodedStructure))
    (file : List Nat) : Except DmiError DecodeResult :=
  match readCaptureHeader file with
  | none =>
      if file.length < 15 then Except.error DmiError.TruncatedSource
      else Except.error DmiError.NoEntryPoint
  | some ep =>
      if (file.drop 15).length < ep.tableLength then
        Except.error DmiError.TruncatedSource
      else
        Except.ok
          (decodeSession reg ep.structureCount
            ((file.drop 15).take ep.tableLength))

/-- C7: for every live table that decodes, persisting the entry point and
the raw table bytes with captureDump and then decoding from the capture
file reconstructs the same EntryPointDescriptor and yields a structured
result set identical to the live decode — the same handles, type IDs and
field values for every structure. -/
theorem capture_roundtrip (reg : Nat → Option (RawRecord → DecodedStructure))
    (ep : EntryPointDescriptor) (tableBytes : List Nat)
    (hmaj : ep.major < 256) (hmin : ep.minor < 256)
    (hcnt : ep.structureCount < 65536) (hlen : ep.tableLength < 65536)
    (haddr : ep.tableAddress < 4294967296) (hck : ep.checksum < 256)
    (hlen2 : tableBytes.length = ep.tableLength) :
    readCaptureHeader (captureDump ep tableBytes) = some ep ∧
    decodeFromCapture reg (captureDump ep tableBytes)
      = Except.ok (decodeSession reg ep.structureCount tableBytes) := by
  obtain ⟨maj, mnr, cnt, len, addr, ck⟩ := ep
  simp only at hmaj hmin hcnt hlen haddr hck hlen2
  have htb : tableBytes.take len = tableBytes := by
    rw [← hlen2]
    exact List.take_length tableBytes
  have hfile : captureDump ⟨maj, mnr, cnt, len, addr, ck⟩ tableBytes
      = 95 :: 83 :: 77 :: 95 :: maj % 256 :: mnr % 256 ::
          cnt % 256 :: cnt / 256 % 256 :: len % 256 :: len / 256 % 256 ::
          addr % 256 :: addr / 256 % 256 :: addr / 65536 % 256 ::
          addr / 16777216 % 256 :: ck % 256 :: tableBytes := by
    simp [captureDump, encodeEntryPoint, anchorSig, htb]
  rw [hfile]
  have hlen15 : ¬ ((95 :: 83 :: 77 :: 95 :: maj % 256 :: mnr % 256 ::
      cnt % 256 :: cnt / 256 % 256 :: len % 256 :: len / 256 % 256 ::
      addr % 256 :: addr / 256 % 256 :: addr / 65536 % 256 ::
      addr / 16777216 % 256 :: ck % 256 :: tableBytes).length < 15) := by
    simp
  have hanchor : (95 :: 83 :: 77 :: 95 :: maj % 256 :: mnr % 256 ::
      cnt % 256 :: cnt / 256 % 256 :: len % 256 :: len / 256 % 256 ::
      addr % 256 :: addr / 256 % 256 :: addr / 65536 % 256 ::
      addr / 16777216 % 256 :: ck % 256 :: tableBytes).take 4 = anchorSig := by
    simp [anchorSig]
  have hhdr : readCaptureHeader (95 :: 83 :: 77 :: 95 :: maj % 256 ::
      mnr % 256 :: cnt % 256 :: cnt / 256 % 256 :: len % 256 ::
      len / 256 % 256 :: addr % 256 :: addr / 256 % 256 ::
      addr / 65536 % 256 :: addr / 16777216 % 256 :: ck % 256 :: tableBytes)
      = some ⟨maj, mnr, cnt, len, addr, ck⟩ := by
    unfold readCaptureHeader
    rw [if_neg hlen15, if_pos hanchor]
    simp only [Option.some.injEq, EntryPointDescriptor.mk.injEq]
    refine ⟨?_, ?_, ?_, ?_, ?_, ?_⟩
    · simp [bytesAt, leVal]
      omega
    · simp [bytesAt, leVal]
      omega
    · simp [WORD, bytesAt, leVal]
      omega
    · simp [WORD, bytesAt, leVal]
      omega
    · simp [DWORD, bytesAt, leVal]
      omega
    · simp [bytesAt, leVal]
      omega
  refine ⟨hhdr, ?_⟩
  unfold decodeFromCapture
  rw [hhdr]
  have hdrop : (95 :: 83 :: 77 :: 95 :: maj % 256 :: mnr % 256 ::
      cnt % 256 :: cnt / 256 % 256 :: len % 256 :: len / 256 % 256 ::
      addr % 256 :: addr / 256 % 256 :: addr / 65536 % 256 ::
      addr / 16777216 % 256 :: ck % 256 :: tableBytes).drop 15 = tableBytes := by
    simp
  rw [hdrop]
  have hnottrunc : ¬ (tableBytes.length < len) := by omega
  show (if tableBytes.length < len then Except.error DmiError.TruncatedSource
      else Except.ok (decodeSession reg cnt (tableBytes.take len)))
    = Except.ok (decodeSession reg cnt tableBytes)
  rw [if_neg hnottrunc, htb]

def demoEp : EntryPointDescriptor := ⟨2, 8, 1, 9, 983040, 77⟩

theorem capture_roundtrip_witness :
    (encodeTable [demoRec]).length = demoEp.tableLength ∧
    readCaptureHeader (captureDump demoEp (encodeTable [demoRec]))
      = some demoEp ∧
    decodeFromCapture emptyRegistry (captureDump demoEp (encodeTable [demoRec]))
      = Except.ok
          (decodeSession emptyRegistry demoEp.structureCount
            (encodeTable [demoRec])) :=
  ⟨by decide,
    (capture_roundtrip emptyRegistry demoEp (encodeTable [demoRec]) (by decide)
      (by decide) (by decide) (by decide) (by decide) (by decide) (by decide)).1,
    (capture_roundtrip emptyRegistry demoEp (encodeTable [demoRec]) (by decide)
      (by decide) (by decide) (by decide) (by decide) (by decide) (by decide)).2⟩
